import Mathlib

/-!
Verification of the ddlite candidate-extraction core exercised by the two
example notebooks (gene tagging and gene-phenotype relation extraction).

The data model is the `Sentence` record printed by the notebooks, spans are
the `(idxs, label)` pairs produced by `Matcher.apply`, and the extraction
drivers (`Entities`, `Relations`, `_extract_candidates`, the dependency-tree
builder `corenlp_to_xmltree_sub`, and the pickle loader of
`CandidateExtractor.__init__`) follow the library code visible in the
notebook traceback.  Matcher internals whose code is not part of the
repository snapshot (dictionary matching, regex filtering, union, candidate
pickling) are modelled from the specification, as marked on each definition.
-/

/-- The sentence record produced by the sentence parser: parallel per-token
arrays plus sentence/document identifiers, exactly the fields printed by the
notebooks (`words`, `lemmas`, `poses`, `dep_parents`, `dep_labels`,
`sent_id`, `doc_id`, `text`, `token_idxs`). -/
structure Sentence where
  words : List String
  lemmas : List String
  poses : List String
  dep_parents : List Nat
  dep_labels : List String
  sent_id : Nat
  doc_id : Nat
  text : String
  token_idxs : List Nat
deriving Repr, DecidableEq

/-- A span as yielded by `Matcher.apply`: the list of token indices it
covers together with the matcher label, matching the
`for e1_idxs, e1_label in self.e1.apply(sent)` destructuring in the
traceback. -/
abbrev Span := List Nat × String

/-- A matcher consumes a sentence and produces a finite sequence of spans. -/
abbrev Matcher := Sentence → List Span

/-- Lower-casing of a string, character by character (structural version of
the usual string map, so that concrete instances evaluate). -/
def lowerStr (s : String) : String :=
  String.mk (s.data.map Char.toLower)

/-- Modelled from the spec: normalization under the case flag — the surface
form is used as-is when case-sensitive, and lower-cased when
`ignore_case` is set. -/
def normCase (ignore_case : Bool) (s : String) : String :=
  if ignore_case then lowerStr s else s

/-- Joining a token run with the canonical single-space separator. -/
def joinSp : List String → String
  | [] => ""
  | [w] => w
  | w :: ws => w ++ " " ++ joinSp ws

/-- The phrase formed by the `l` tokens starting at position `i`. -/
def phraseAt (ws : List String) (i l : Nat) : String :=
  joinSp ((ws.drop i).take l)

/-- Modelled from the spec: dictionary membership respecting the case flag —
both the dictionary entries and the probe string are normalized before
comparison. -/
def inDictionary (dictionary : List String) (ignore_case : Bool) (s : String) : Bool :=
  (dictionary.map (normCase ignore_case)).contains (normCase ignore_case s)

/-- The number of space-separated tokens of a dictionary entry: one more
than the number of space characters. -/
def tokenCount (e : String) : Nat :=
  (e.data.filter (fun c => c == ' ')).length + 1

/-- Modelled from the spec: the bounded maximum span length is driven by the
longest dictionary entry's token count. -/
def maxPhraseLen (dictionary : List String) : Nat :=
  (dictionary.map tokenCount).foldr Nat.max 0

/-- The candidate match lengths tried at a position, longest first:
`[m, m-1, ..., 1]`. -/
def descendingLens (m : Nat) : List Nat :=
  (List.range m).map (fun k => m - k)

/-- Modelled from the spec: at token position `i`, the length of the longest
contiguous token run (within the sentence and within the bounded maximum
length) whose joined surface form is in the dictionary, if any. -/
def dictMatchLen (dictionary : List String) (ignore_case : Bool)
    (ws : List String) (i : Nat) : Option Nat :=
  (descendingLens (maxPhraseLen dictionary)).find? (fun l =>
    decide (i + l ≤ ws.length) && inDictionary dictionary ignore_case (phraseAt ws i l))

/-- Modelled from the spec: `DictionaryMatch(label, dictionary, ignore_case)`
slides over token positions of the sentence words and at each position emits
one span per maximal dictionary match starting there (matches from distinct
starting positions may overlap). -/
def DictionaryMatch (dictionary : List String) (label : String)
    (ignore_case : Bool) : Matcher := fun s =>
  (List.range s.words.length).filterMap (fun i =>
    (dictMatchLen dictionary ignore_case s.words i).map
      (fun l => ((List.range l).map (fun k => i + k), label)))

/-- The chosen attribute's values joined over a span's token index list. -/
def spanAttrText (attr : Sentence → List String) (s : Sentence) (idxs : List Nat) : String :=
  joinSp (idxs.filterMap (fun i => (attr s).get? i))

/-- Modelled from the spec: `RegexFilterAll(inner, label, pattern, attr)`
re-examines each span produced by the inner matcher and keeps it exactly
when the regex accepts the chosen attribute's value joined over the span's
full token range as a whole.  The regex engine is external, so the compiled
pattern is modelled as the Boolean acceptance test `re`. -/
def RegexFilterAll (inner : Matcher) (re : String → Bool)
    (attr : Sentence → List String) : Matcher := fun s =>
  (inner s).filter (fun sp => re (spanAttrText attr s sp.1))

/-- Modelled from the spec: `Union(m1, m2)` applies each matcher in turn and
concatenates their span sequences in matcher-argument order, with no
deduplication.  (The source name `Union` is already taken by core Lean, so
the embedding calls it `UnionMatch`.) -/
def UnionMatch (m1 m2 : Matcher) : Matcher := fun s =>
  m1 s ++ m2 s

/-- A single-entity candidate: the stable integer id assigned at emission
time, the sentence it came from, and the span's token indices and label. -/
structure EntityCandidate where
  id : Nat
  sent : Sentence
  idxs : List Nat
  label : String
deriving Repr, DecidableEq

/-- The per-sentence, per-span stream of an `Entities` extraction, in corpus
order then matcher emission order, mirroring `_extract_candidates`
(`for sent in sents: for cand in self._apply(sent): yield cand`). -/
def entitySpans (C : List Sentence) (m : Matcher) : List (Sentence × Span) :=
  C.flatMap (fun s => (m s).map (fun sp => (s, sp)))

/-- `Entities(sents, matcher)`: one candidate per emitted span, with ids
assigned monotonically in emission order (a candidate's id is its position
in the extractor's candidate list). -/
def Entities (C : List Sentence) (m : Matcher) : List EntityCandidate :=
  (entitySpans C m).enum.map (fun p => ⟨p.1, p.2.1, p.2.2.1, p.2.2.2⟩)

/-- A relation candidate: the sentence and the two spans, the first from
`matcher1` and the second from `matcher2`. -/
abbrev RelationCandidate := Sentence × Span × Span

/-- `Relations._apply(sent)` as shown in the traceback: outer loop over the
first matcher's spans, inner loop over the second matcher's spans, one
candidate per pair.  (The traceback shows `_apply` also builds the
dependency tree `xt = corenlp_to_xmltree(sent)` before looping; that step is
modelled by `corenlp_to_xmltree` below and proved to always succeed, so it
contributes nothing to the emitted sequence.) -/
def Relations_apply (m1 m2 : Matcher) (s : Sentence) : List RelationCandidate :=
  (m1 s).flatMap (fun sp1 => (m2 s).map (fun sp2 => (s, sp1, sp2)))

/-- `Relations(sents, matcher1, matcher2)`: candidate pairs for every
sentence in corpus order, via `_extract_candidates` iterating `_apply`. -/
def Relations (C : List Sentence) (m1 m2 : Matcher) : List RelationCandidate :=
  C.flatMap (Relations_apply m1 m2)

/-- The Cartesian-product reading of the Relations contract, written from
the spec's words: for each sentence, every pair of the product
`S1 × S2` in outer/inner loop order. -/
def relationsProductSpec (C : List Sentence) (m1 m2 : Matcher) : List RelationCandidate :=
  C.flatMap (fun s => ((m1 s).product (m2 s)).map (fun p => (s, p.1, p.2)))

/-- A node of the dependency tree built by the tree constructor: the 1-based
node id (0 for the synthetic root) and the child subtrees. -/
inductive XTree where
  | node : Nat → List XTree → XTree
deriving Repr

/-- The child token positions of node `rid`: every `i` with
`dep_parents[i] == rid`, in token order, as in the loop
`for i, d in enumerate(dep_parents): if d == rid: ...` of the traceback. -/
def childIdxs (dep_parents : List Nat) (rid : Nat) : List Nat :=
  (List.range dep_parents.length).filter (fun i => dep_parents.get? i == some rid)

/-- `corenlp_to_xmltree_sub(s, dep_parents, rid)` from the traceback:
recursively builds the subtree rooted at 1-based node id `rid`, descending
into `i+1` for every token `i` whose dependency parent is `rid`.  The Python
recursion carries no termination evidence, so the embedding spends one unit
of `fuel` per recursive level and returns `none` when the fuel runs out;
the wrapper below supplies fuel that is proved sufficient for every input. -/
def corenlp_to_xmltree_sub (dep_parents : List Nat) : Nat → Nat → Option XTree
  | 0, _ => none
  | fuel + 1, rid =>
    ((childIdxs dep_parents rid).foldr
      (fun i acc =>
        match corenlp_to_xmltree_sub dep_parents fuel (i + 1), acc with
        | some t, some ts => some (t :: ts)
        | _, _ => none)
      (some [])).map (XTree.node rid)

/-- `corenlp_to_xmltree(s)` from the traceback: parse recursively from the
synthetic root id 0 (`root = corenlp_to_xmltree_sub(s, dep_parents, 0)`). -/
def corenlp_to_xmltree (dep_parents : List Nat) : Option XTree :=
  corenlp_to_xmltree_sub dep_parents (dep_parents.length + 1) 0

/-- `Relations._apply` including its first step: build the dependency tree
for the sentence, then emit the candidate pairs.  The result is `none`
exactly when the tree construction would not terminate. -/
def Relations_applyWithTree (m1 m2 : Matcher) (s : Sentence) :
    Option (List RelationCandidate) :=
  (corenlp_to_xmltree s.dep_parents).map (fun _ => Relations_apply m1 m2 s)

/-- Modelled from the spec: a corpus-wide Relations extraction under
cooperative cancellation.  The budget counts sentences processed before the
interrupt arrives; when it runs out mid-corpus the interrupt propagates as
an error out of the constructor and the partially built accumulator is
discarded, exactly as the KeyboardInterrupt in the notebook aborts
`list(self._extract_candidates(C))` before `R` is ever bound. -/
def Relations_extract_loop (m1 m2 : Matcher) :
    Nat → List Sentence → List RelationCandidate →
    Except String (List RelationCandidate)
  | _, [], acc => Except.ok acc
  | 0, _ :: _, _ => Except.error "KeyboardInterrupt"
  | b + 1, s :: rest, acc =>
    Relations_extract_loop m1 m2 b rest (acc ++ Relations_apply m1 m2 s)

/-- Entry point of the cancellable extraction: start with an empty
accumulator. -/
def Relations_extract_interruptible (budget : Nat) (C : List Sentence)
    (m1 m2 : Matcher) : Except String (List RelationCandidate) :=
  Relations_extract_loop m1 m2 budget C []

/-- Length-prefixed encoding of a list of numbers. -/
def encList (xs : List Nat) : List Nat := xs.length :: xs

/-- Length-prefixed encoding of a string as its character code points. -/
def encStr (t : String) : List Nat := encList (t.data.map Char.toNat)

/-- Count-prefixed encoding of a list of strings. -/
def encStrList (ts : List String) : List Nat := ts.length :: ts.flatMap encStr

/-- Modelled from the spec: the persisted form of a candidate embeds the
full sentence record (the spec allows the sentence reference to be stored
by id or by embedding the full sentence), the span boundaries and the
label. -/
def encSentence (s : Sentence) : List Nat :=
  encStrList s.words ++ encStrList s.lemmas ++ encStrList s.poses ++
    encList s.dep_parents ++ encStrList s.dep_labels ++
    [s.sent_id, s.doc_id] ++ encStr s.text ++ encList s.token_idxs

/-- Serialized form of one candidate: id, sentence, span indices, label. -/
def encCandidate (c : EntityCandidate) : List Nat :=
  c.id :: (encSentence c.sent ++ encList c.idxs ++ encStr c.label)

/-- Modelled from the spec: `dump_candidates` serializes the ordered
candidate sequence as an opaque blob (here a flat number stream with a
leading candidate count). -/
def dump_candidates (cs : List EntityCandidate) : List Nat :=
  cs.length :: cs.flatMap encCandidate

/-- Reads `n` numbers from the stream, returning them and the remainder. -/
def decTake : Nat → List Nat → Option (List Nat × List Nat)
  | 0, rest => some ([], rest)
  | _ + 1, [] => none
  | n + 1, x :: rest => (decTake n rest).map (fun p => (x :: p.1, p.2))

/-- Decodes one length-prefixed number list. -/
def decList : List Nat → Option (List Nat × List Nat)
  | [] => none
  | n :: rest => decTake n rest

/-- Decodes one number. -/
def decNat : List Nat → Option (Nat × List Nat)
  | [] => none
  | n :: rest => some (n, rest)

/-- Decodes one length-prefixed string. -/
def decStr (b : List Nat) : Option (String × List Nat) :=
  (decList b).map (fun p => (String.mk (p.1.map Char.ofNat), p.2))

/-- Runs a field decoder a fixed number of times. -/
def decCount {α : Type} (dec : List Nat → Option (α × List Nat)) :
    Nat → List Nat → Option (List α × List Nat)
  | 0, rest => some ([], rest)
  | n + 1, b =>
    match dec b with
    | none => none
    | some (a, rest) => (decCount dec n rest).map (fun p => (a :: p.1, p.2))

/-- Decodes one count-prefixed string list. -/
def decStrList (b : List Nat) : Option (List String × List Nat) :=
  match b with
  | [] => none
  | n :: rest => decCount decStr n rest

/-- Decodes one persisted sentence record. -/
def decSentence (b : List Nat) : Option (Sentence × List Nat) := do
  let (words, b) ← decStrList b
  let (lemmas, b) ← decStrList b
  let (poses, b) ← decStrList b
  let (dep_parents, b) ← decList b
  let (dep_labels, b) ← decStrList b
  let (sent_id, b) ← decNat b
  let (doc_id, b) ← decNat b
  let (text, b) ← decStr b
  let (token_idxs, b) ← decList b
  some (⟨words, lemmas, poses, dep_parents, dep_labels, sent_id, doc_id, text, token_idxs⟩, b)

/-- Decodes one persisted candidate. -/
def decCandidate (b : List Nat) : Option (EntityCandidate × List Nat) := do
  let (id, b) ← decNat b
  let (sent, b) ← decSentence b
  let (idxs, b) ← decList b
  let (label, b) ← decStr b
  some (⟨id, sent, idxs, label⟩, b)

/-- Modelled from the spec: loading a persisted candidate blob rebuilds the
ordered candidate sequence; any malformed or trailing data makes the load
fail rather than produce a partial set. -/
def load_candidates (b : List Nat) : Option (List EntityCandidate) :=
  match b with
  | [] => none
  | n :: rest =>
    match decCount decCandidate n rest with
    | some (cs, []) => some cs
    | _ => none

/-- `CandidateExtractor.__init__` constructed from a path, as in the
traceback fragment: a failed load of any kind (missing data as well as
corrupt data) raises `ValueError("No pickled candidates at ...")`.  The
byte store standing for the filesystem is modelled from the spec. -/
def CandidateExtractor_init_load (store : String → Option (List Nat))
    (path : String) : Except String (List EntityCandidate) :=
  match store path with
  | none => Except.error ("No pickled candidates at " ++ path)
  | some b =>
    match load_candidates b with
    | none => Except.error ("No pickled candidates at " ++ path)
    | some cs => Except.ok cs

/-- A concrete sentence for witnesses, with the token layout of the spec's
dictionary scenario. -/
def sentGene : Sentence :=
  ⟨["the", "TP53", "gene", "and", "BRCA1", "mutation"],
   ["the", "tp53", "gene", "and", "brca1", "mutation"],
   ["DT", "NN", "NN", "CC", "NN", "NN"],
   [3, 3, 0, 3, 6, 3],
   ["det", "compound", "ROOT", "cc", "compound", "conj"],
   0, 0, "the TP53 gene and BRCA1 mutation", [0, 4, 9, 14, 18, 24]⟩

/-- C4: Union(M1, M2).apply(S) is the concatenation of M1.apply(S) followed
by M2.apply(S), preserving each matcher's internal emission order and
duplicates, so its length is the sum of the two lengths. -/
theorem union_concatenation (m1 m2 : Matcher) (s : Sentence) :
    UnionMatch m1 m2 s = m1 s ++ m2 s ∧
    (UnionMatch m1 m2 s).length = (m1 s).length + (m2 s).length :=
  ⟨rfl, List.length_append _ _⟩

/-- C3: the span sequence emitted by a Filter is a subsequence of the inner
matcher's spans — it emits a span exactly when the inner matcher emitted it
and the regex accepts the chosen attribute's value joined over the span's
full token range as a whole. -/
theorem regex_filter_restriction (inner : Matcher) (re : String → Bool)
    (attr : Sentence → List String) (s : Sentence) :
    (RegexFilterAll inner re attr s).Sublist (inner s) ∧
    ∀ sp : Span, sp ∈ RegexFilterAll inner re attr s ↔
      sp ∈ inner s ∧ re (spanAttrText attr s sp.1) = true :=
  ⟨List.filter_sublist _, fun _ => List.mem_filter⟩

/-- C1: the Relations extractor emits exactly one candidate per pair of the
Cartesian product of the two matchers' spans, sentence by sentence in corpus
order with the first matcher's spans as the outer loop, and its total length
is the sum over sentences of the product of the two span counts. -/
theorem relations_cartesian_product (C : List Sentence) (m1 m2 : Matcher) :
    Relations C m1 m2 = relationsProductSpec C m1 m2 ∧
    (Relations C m1 m2).length =
      (C.map (fun s => (m1 s).length * (m2 s).length)).sum := by
  constructor
  · unfold Relations relationsProductSpec
    congr 1
    funext s
    simp [Relations_apply, List.product, List.map_flatMap, List.map_map,
      Function.comp_def]
  · simp [Relations, Relations_apply, List.length_flatMap, List.map_map,
      Function.comp_def, List.map_const', List.sum_replicate, smul_eq_mul,
      Nat.mul_comm]

/-- C5: Entities emits one candidate per span the matcher produces, for each
sentence in corpus order, with ids assigned monotonically (the id sequence
is exactly 0, 1, 2, ...), and its length is the sum over sentences of the
matcher's span count. -/
theorem entities_emission (C : List Sentence) (m : Matcher) :
    (Entities C m).length = (C.map (fun s => (m s).length)).sum ∧
    (Entities C m).map (fun c => (c.sent, (c.idxs, c.label))) = entitySpans C m ∧
    (Entities C m).map EntityCandidate.id = List.range (Entities C m).length := by
  refine ⟨?_, ?_, ?_⟩
  · simp [Entities, entitySpans, List.length_flatMap, List.map_map,
      Function.comp_def]
  · simp [Entities, List.map_map, Function.comp_def, List.enum_map_snd]
  · simp [Entities, List.map_map, Function.comp_def, List.enum_length,
      List.enum_map_fst]

/-- Candidate emission is a pure function of the corpus order and the
matchers' per-sentence span sequences: replacing each matcher by one that
agrees on every sentence of the corpus leaves the extraction unchanged. -/
theorem flatMap_agree {α β : Type} (C : List α) (f g : α → List β)
    (h : ∀ s ∈ C, f s = g s) : C.flatMap f = C.flatMap g := by
  induction C with
  | nil => rfl
  | cons s rest ih =>
    simp only [List.flatMap_cons]
    rw [h s (by simp), ih (fun x hx => h x (by simp [hx]))]

/-- C7: every matcher application is deterministic and side-effect free in
the model, so the candidate output of Relations and Entities is a pure
function of the corpus order and each matcher's per-sentence emission
sequences, and each emitted candidate carries its input sentence
unchanged. -/
theorem extraction_deterministic (C : List Sentence) (m1 m2 m1' m2' : Matcher)
    (h1 : ∀ s ∈ C, m1 s = m1' s) (h2 : ∀ s ∈ C, m2 s = m2' s) :
    Relations C m1 m2 = Relations C m1' m2' ∧
    Entities C m1 = Entities C m1' ∧
    ∀ s ∈ C, ∀ c ∈ Relations_apply m1 m2 s, c.1 = s := by
  refine ⟨?_, ?_, ?_⟩
  · exact flatMap_agree C _ _ (fun s hs => by
      simp [Relations_apply, h1 s hs, h2 s hs])
  · unfold Entities entitySpans
    rw [flatMap_agree C _ _ (fun s hs => by rw [h1 s hs])]
  · intro s _ c hc
    simp only [Relations_apply, List.mem_flatMap, List.mem_map] at hc
    obtain ⟨sp1, _, sp2, _, rfl⟩ := hc
    rfl

/-- Witness for C7 at a concrete corpus and concrete matchers. -/
theorem extraction_deterministic_witness :
    Relations [sentGene] (fun _ => [([1], "G")]) (fun _ => [([4], "P")]) =
      Relations [sentGene] (fun _ => [([1], "G")]) (fun _ => [([4], "P")]) ∧
    Entities [sentGene] (fun _ => [([1], "G")]) =
      Entities [sentGene] (fun _ => [([1], "G")]) ∧
    ∀ s ∈ [sentGene], ∀ c ∈ Relations_apply (fun _ => [([1], "G")])
      (fun _ => [([4], "P")]) s, c.1 = s :=
  extraction_deterministic [sentGene] _ _ _ _ (fun _ _ => rfl) (fun _ _ => rfl)

/-- Any successful run of the cancellable loop returns the accumulator
followed by the complete extraction of the remaining corpus. -/
theorem extract_loop_ok (m1 m2 : Matcher) (C : List Sentence) :
    ∀ (budget : Nat) (acc res : List RelationCandidate),
      Relations_extract_loop m1 m2 budget C acc = Except.ok res →
      res = acc ++ Relations C m1 m2 := by
  induction C with
  | nil =>
    intro budget acc res h
    cases budget <;>
      simpa [Relations_extract_loop, Relations] using h.symm
  | cons s rest ih =>
    intro budget acc res h
    cases budget with
    | zero => simp [Relations_extract_loop] at h
    | succ b =>
      rw [Relations_extract_loop] at h
      rw [ih b _ res h]
      simp [Relations, List.flatMap_cons, List.append_assoc]

/-- C8: an interrupted corpus-wide Relations extraction never surfaces as a
successful result — whenever the cancellable extraction returns `ok`, the
returned candidate list is the complete Cartesian-product extraction, so a
truncated set is never presented as complete (the interrupt propagates as
an error and the partial accumulator is discarded). -/
theorem interrupt_never_truncated (budget : Nat) (C : List Sentence)
    (m1 m2 : Matcher) (res : List RelationCandidate)
    (h : Relations_extract_interruptible budget C m1 m2 = Except.ok res) :
    res = Relations C m1 m2 := by
  have := extract_loop_ok m1 m2 C budget [] res h
  simpa using this

/-- Witness for C8: a budget that covers the corpus returns the complete
extraction. -/
theorem interrupt_never_truncated_witness :
    Relations_extract_interruptible 1 [sentGene] (fun _ => [([1], "G")])
      (fun _ => [([4], "P")]) =
      Except.ok [(sentGene, ([1], "G"), ([4], "P"))] ∧
    [(sentGene, ([1], "G"), ([4], "P"))] =
      Relations [sentGene] (fun _ => [([1], "G")]) (fun _ => [([4], "P")]) :=
  ⟨rfl, interrupt_never_truncated 1 [sentGene] _ _ _ rfl⟩

/-- C9: loading persisted candidates from a path with no valid persisted
data fails with the explicit "No pickled candidates" error and never
returns a candidate set, so a load failure is distinguishable from a
successful load of an empty result (which yields `ok []`, as the last
conjunct shows). -/
theorem load_missing_explicit_error (store : String → Option (List Nat))
    (path : String) (h : store path = none) :
    CandidateExtractor_init_load store path =
      Except.error ("No pickled candidates at " ++ path) ∧
    (∀ cs : List EntityCandidate,
      CandidateExtractor_init_load store path ≠ Except.ok cs) ∧
    CandidateExtractor_init_load (fun _ => some (dump_candidates [])) path =
      Except.ok [] := by
  refine ⟨?_, ?_, rfl⟩
  · simp [CandidateExtractor_init_load, h]
  · intro cs
    simp [CandidateExtractor_init_load, h]

/-- Witness for C9 at a concrete empty store and concrete path. -/
theorem load_missing_explicit_error_witness :
    CandidateExtractor_init_load (fun _ => none) "gene_phen_saved_relations_v3.pkl" =
      Except.error ("No pickled candidates at " ++ "gene_phen_saved_relations_v3.pkl") ∧
    (∀ cs : List EntityCandidate,
      CandidateExtractor_init_load (fun _ => none) "gene_phen_saved_relations_v3.pkl" ≠
        Except.ok cs) ∧
    CandidateExtractor_init_load (fun _ => some (dump_candidates []))
      "gene_phen_saved_relations_v3.pkl" = Except.ok [] :=
  load_missing_explicit_error (fun _ => none) "gene_phen_saved_relations_v3.pkl" rfl

/-- The descending length list unfolds as its head followed by the next
descending list. -/
theorem descendingLens_succ (m : Nat) :
    descendingLens (m + 1) = (m + 1) :: descendingLens m := by
  unfold descendingLens
  rw [List.range_succ_eq_map]
  simp [List.map_map, Function.comp_def, Nat.succ_sub_succ]

/-- Searching the candidate lengths longest-first: a hit satisfies the
predicate, lies in `[1, m]`, and every strictly longer candidate length in
range fails the predicate. -/
theorem find?_descendingLens {p : Nat → Bool} {m l : Nat}
    (h : (descendingLens m).find? p = some l) :
    p l = true ∧ 1 ≤ l ∧ l ≤ m ∧ ∀ l', l < l' → l' ≤ m → p l' = false := by
  induction m with
  | zero => simp [descendingLens] at h
  | succ m ih =>
    rw [descendingLens_succ] at h
    by_cases hp : p (m + 1) = true
    · rw [List.find?_cons_of_pos _ hp] at h
      have hl : m + 1 = l := by injection h
      subst hl
      exact ⟨hp, by omega, le_rfl, fun l' h1 h2 => by omega⟩
    · rw [List.find?_cons_of_neg _ hp] at h
      obtain ⟨h1, h2, h3, h4⟩ := ih h
      refine ⟨h1, h2, by omega, ?_⟩
      intro l' hl1 hl2
      rcases Nat.lt_or_ge l' (m + 1) with hc | hc
      · exact h4 l' hl1 (by omega)
      · have hl' : l' = m + 1 := by omega
        subst hl'
        simpa using hp

/-- C2: every span the Dictionary Matcher emits covers a contiguous token
run starting at some position `i` whose joined surface form is a member of
the dictionary (up to the case flag), and the run is the longest match at
that starting position within the bound given by the longest dictionary
entry's token count. -/
theorem dictionary_match_sound (dictionary : List String) (label : String)
    (ignore_case : Bool) (s : Sentence) (sp : Span)
    (h : sp ∈ DictionaryMatch dictionary label ignore_case s) :
    ∃ i l, 1 ≤ l ∧ l ≤ maxPhraseLen dictionary ∧ i + l ≤ s.words.length ∧
      sp = ((List.range l).map (fun k => i + k), label) ∧
      (∃ e ∈ dictionary,
        normCase ignore_case e = normCase ignore_case (phraseAt s.words i l)) ∧
      ∀ l', l < l' → l' ≤ maxPhraseLen dictionary → i + l' ≤ s.words.length →
        inDictionary dictionary ignore_case (phraseAt s.words i l') = false := by
  unfold DictionaryMatch at h
  rw [List.mem_filterMap] at h
  obtain ⟨i, _, hf⟩ := h
  rw [Option.map_eq_some'] at hf
  obtain ⟨l, hl, rfl⟩ := hf
  unfold dictMatchLen at hl
  obtain ⟨hp, h1, h2, hmax⟩ := find?_descendingLens hl
  rw [Bool.and_eq_true, decide_eq_true_eq] at hp
  refine ⟨i, l, h1, h2, hp.1, rfl, ?_, ?_⟩
  · have hmem := hp.2
    unfold inDictionary at hmem
    rw [List.contains_iff_exists_mem_beq] at hmem
    obtain ⟨x, hx, hbeq⟩ := hmem
    rw [List.mem_map] at hx
    obtain ⟨e, he, rfl⟩ := hx
    exact ⟨e, he, (beq_iff_eq.mp hbeq).symm⟩
  · intro l' hlt hle hin
    have hpl := hmax l' hlt hle
    simpa [hin] using hpl

/-- Witness for C2 on the spec's concrete scenario: the case-sensitive
dictionary match of TP53 at token position 1 of the example sentence. -/
theorem dictionary_match_sound_witness :
    (([1], "GeneName") ∈ DictionaryMatch ["TP53", "BRCA1"] "GeneName" false sentGene) ∧
    ∃ i l, 1 ≤ l ∧ l ≤ maxPhraseLen ["TP53", "BRCA1"] ∧
      i + l ≤ sentGene.words.length ∧
      (([1], "GeneName") : Span) = ((List.range l).map (fun k => i + k), "GeneName") ∧
      (∃ e ∈ ["TP53", "BRCA1"],
        normCase false e = normCase false (phraseAt sentGene.words i l)) ∧
      ∀ l', l < l' → l' ≤ maxPhraseLen ["TP53", "BRCA1"] →
        i + l' ≤ sentGene.words.length →
        inDictionary ["TP53", "BRCA1"] false (phraseAt sentGene.words i l') = false :=
  ⟨by decide, dictionary_match_sound ["TP53", "BRCA1"] "GeneName" false sentGene
    ([1], "GeneName") (by decide)⟩

/-- Reading back exactly the numbers that were written leaves the rest of
the stream untouched. -/
theorem decTake_append (xs r : List Nat) :
    decTake xs.length (xs ++ r) = some (xs, r) := by
  induction xs with
  | nil => rfl
  | cons x xs ih => simp [decTake, ih]

/-- Round trip for one length-prefixed number list. -/
theorem decList_enc (xs r : List Nat) :
    decList (encList xs ++ r) = some (xs, r) := by
  simp [encList, decList, decTake_append]

/-- Round trip for one length-prefixed string. -/
theorem decStr_enc (t : String) (r : List Nat) :
    decStr (encStr t ++ r) = some (t, r) := by
  cases t with
  | mk d =>
    simp [encStr, decStr, decList_enc, List.map_map, Function.comp_def,
      Char.ofNat_toNat]

/-- Round trip for one number. -/
theorem decNat_enc (n : Nat) (r : List Nat) : decNat (n :: r) = some (n, r) := rfl

/-- Round trip for a counted run of any field codec. -/
theorem decCount_enc {α : Type} (dec : List Nat → Option (α × List Nat))
    (enc : α → List Nat) (H : ∀ a r, dec (enc a ++ r) = some (a, r))
    (xs : List α) (r : List Nat) :
    decCount dec xs.length (xs.flatMap enc ++ r) = some (xs, r) := by
  induction xs with
  | nil => rfl
  | cons a xs ih =>
    simp [decCount, List.flatMap_cons, List.append_assoc, H, ih]

/-- Round trip for one count-prefixed string list. -/
theorem decStrList_enc (ts : List String) (r : List Nat) :
    decStrList (encStrList ts ++ r) = some (ts, r) := by
  simpa [encStrList, decStrList] using
    decCount_enc decStr encStr decStr_enc ts r

/-- Round trip for one persisted sentence record. -/
theorem decSentence_enc (s : Sentence) (r : List Nat) :
    decSentence (encSentence s ++ r) = some (s, r) := by
  cases s with
  | mk words lemmas poses dp dl sid did text tidx =>
    simp [encSentence, decSentence, List.append_assoc, decStrList_enc,
      decList_enc, decStr_enc, decNat]

/-- Round trip for one persisted candidate. -/
theorem decCandidate_enc (c : EntityCandidate) (r : List Nat) :
    decCandidate (encCandidate c ++ r) = some (c, r) := by
  cases c with
  | mk id sent idxs label =>
    simp [encCandidate, decCandidate, List.append_assoc, decNat,
      decSentence_enc, decList_enc, decStr_enc]

/-- C6: saving a candidate set and loading it back yields a behaviorally
identical candidate set — the very same ordered list, hence the same
length, candidate order, ids, sentence content, span boundaries and
labels — without re-running extraction; the same holds through the
path-based loader on any store holding the saved blob. -/
theorem dump_load_roundtrip (cs : List EntityCandidate) :
    load_candidates (dump_candidates cs) = some cs ∧
    ∀ path : String,
      CandidateExtractor_init_load (fun _ => some (dump_candidates cs)) path =
        Except.ok cs := by
  have h := decCount_enc decCandidate encCandidate decCandidate_enc cs []
  rw [List.append_nil] at h
  constructor
  · simp [dump_candidates, load_candidates, h]
  · intro path
    simp [CandidateExtractor_init_load, dump_candidates, load_candidates, h]

/-- One step up the dependency chain: the parent id of 1-based node `r`
(`dep_parents[r-1]`), with the synthetic root 0 having no parent. -/
def parentOf (dp : List Nat) : Nat → Option Nat
  | 0 => none
  | i + 1 => dp.get? i

/-- `k` steps up the dependency chain from node `r`. -/
def iterParent (dp : List Nat) : Nat → Nat → Option Nat
  | 0, r => some r
  | k + 1, r =>
    match parentOf dp r with
    | none => none
    | some p => iterParent dp k p

/-- Splitting an upward walk into two stages. -/
theorem iterParent_add (dp : List Nat) (a b : Nat) :
    ∀ r, iterParent dp (a + b) r =
      (iterParent dp a r).bind (fun x => iterParent dp b x) := by
  induction a with
  | zero => intro r; simp [iterParent]
  | succ a ih =>
    intro r
    have hs : a + 1 + b = (a + b) + 1 := by omega
    rw [hs]
    cases hp : parentOf dp r with
    | none => simp [iterParent, hp]
    | some p => simp [iterParent, hp, ih p]

/-- A prefix of a successful upward walk is itself successful. -/
theorem iterParent_prefix (dp : List Nat) {k r v : Nat}
    (h : iterParent dp k r = some v) {j : Nat} (hj : j ≤ k) :
    ∃ w, iterParent dp j r = some w := by
  rw [show k = j + (k - j) by omega, iterParent_add] at h
  cases hw : iterParent dp j r with
  | none => rw [hw] at h; simp at h
  | some w => exact ⟨w, rfl⟩

/-- A node that still has a parent is a real token position, so its id is
between 1 and the token count. -/
theorem parentOf_some_bound (dp : List Nat) {x p : Nat}
    (h : parentOf dp x = some p) : 1 ≤ x ∧ x ≤ dp.length := by
  cases x with
  | zero => simp [parentOf] at h
  | succ i =>
    have hi : i < dp.length := by
      obtain ⟨hlt, -⟩ := List.get?_eq_some.mp h
      exact hlt
    omega

/-- A successful upward walk of minimal length visits pairwise distinct
node ids, all of which lie in `[0, N]`, so the minimal depth of any node is
at most the token count. -/
theorem mindepth_le (dp : List Nat) {k r : Nat}
    (h : iterParent dp k r = some 0)
    (hmin : ∀ m, m < k → iterParent dp m r ≠ some 0) :
    k ≤ dp.length := by
  have hstep : ∀ j, j < k → ∃ w, iterParent dp j r = some w ∧
      iterParent dp (k - j) w = some 0 ∧ w ≤ dp.length := by
    intro j hj
    obtain ⟨w, hw⟩ := iterParent_prefix dp h (le_of_lt hj)
    have h0 : iterParent dp (k - j) w = some 0 := by
      have hh := h
      rw [show k = j + (k - j) by omega, iterParent_add, hw] at hh
      simpa using hh
    have hbound : w ≤ dp.length := by
      rcases hkj : k - j with _ | m
      · omega
      · rw [hkj] at h0
        cases hp : parentOf dp w with
        | none => rw [iterParent, hp] at h0; simp at h0
        | some p => exact (parentOf_some_bound dp hp).2
    exact ⟨w, hw, h0, hbound⟩
  have hmaps : ∀ j ∈ Finset.range (k + 1),
      (iterParent dp j r).getD 0 ∈ Finset.range (dp.length + 1) := by
    intro j hj
    rw [Finset.mem_range] at hj
    rw [Finset.mem_range]
    rcases Nat.lt_or_ge j k with hjk | hjk
    · obtain ⟨w, hw, -, hbound⟩ := hstep j hjk
      rw [hw]
      simpa using Nat.lt_succ_of_le hbound
    · have hjeq : j = k := by omega
      subst hjeq
      rw [h]
      simp
  have hinj : Set.InjOn (fun j => (iterParent dp j r).getD 0)
      ↑(Finset.range (k + 1)) := by
    have key : ∀ a b, a < b → b ≤ k →
        (iterParent dp a r).getD 0 ≠ (iterParent dp b r).getD 0 := by
      intro a b hab hbk heq
      obtain ⟨x, hx⟩ := iterParent_prefix dp h (by omega : a ≤ k)
      obtain ⟨y, hy⟩ := iterParent_prefix dp h hbk
      rw [hx, hy] at heq
      simp at heq
      have h0 : iterParent dp (k - b) y = some 0 := by
        have hh := h
        rw [show k = b + (k - b) by omega, iterParent_add, hy] at hh
        simpa using hh
      have h1 : iterParent dp (a + (k - b)) r = some 0 := by
        rw [iterParent_add, hx]
        simpa [heq] using h0
      exact hmin (a + (k - b)) (by omega) h1
    intro j1 hj1 j2 hj2 heq
    simp only [Finset.coe_range, Set.mem_Iio] at hj1 hj2
    by_contra hne
    rcases Nat.lt_or_ge j1 j2 with hc | hc
    · exact key j1 j2 hc (by omega) heq
    · have hc2 : j2 < j1 := by omega
      exact key j2 j1 hc2 (by omega) heq.symm
  have hcard := Finset.card_le_card_of_injOn _ hmaps hinj
  simpa using hcard

/-- Descending from a node to one of its children adds exactly one step to
the minimal upward walk: the child also reaches the root, and not any
faster, because its unique parent is the node itself. -/
theorem child_step (dp : List Nat) {i rid k : Nat} (hd : dp.get? i = some rid)
    (h : iterParent dp k rid = some 0)
    (hmin : ∀ m, m < k → iterParent dp m rid ≠ some 0) :
    iterParent dp (k + 1) (i + 1) = some 0 ∧
    ∀ m, m < k + 1 → iterParent dp m (i + 1) ≠ some 0 := by
  have hd' : dp[i]? = some rid := by
    rw [← List.get?_eq_getElem?]
    exact hd
  constructor
  · simp [iterParent, parentOf, hd', h]
  · intro m hm
    cases m with
    | zero =>
      intro hcon
      simp [iterParent] at hcon
    | succ m' =>
      intro hcon
      rw [iterParent] at hcon
      simp only [parentOf, List.get?_eq_getElem?, hd'] at hcon
      exact hmin m' (by omega) hcon

/-- The children fold of the tree builder succeeds as soon as every child
subtree succeeds. -/
theorem foldr_children_isSome (dp : List Nat) (fuel : Nat) (l : List Nat)
    (h : ∀ i ∈ l, (corenlp_to_xmltree_sub dp fuel (i + 1)).isSome = true) :
    (l.foldr
      (fun i acc =>
        match corenlp_to_xmltree_sub dp fuel (i + 1), acc with
        | some t, some ts => some (t :: ts)
        | _, _ => none)
      (some [])).isSome = true := by
  induction l with
  | nil => rfl
  | cons i l ih =>
    obtain ⟨t, ht⟩ := Option.isSome_iff_exists.mp (h i (by simp))
    obtain ⟨ts, hts⟩ := Option.isSome_iff_exists.mp
      (ih (fun j hj => h j (by simp [hj])))
    simp [List.foldr_cons, ht, hts]

/-- Fuel sufficiency for the tree builder: starting from any node whose
minimal upward walk to the root has length `k`, fuel `N + 1 - k` suffices,
because every downward step raises the minimal depth by one and minimal
depths never exceed the token count. -/
theorem xmltree_sub_total (dp : List Nat) :
    ∀ (fuel rid k : Nat), iterParent dp k rid = some 0 →
      (∀ m, m < k → iterParent dp m rid ≠ some 0) →
      dp.length + 1 ≤ fuel + k →
      (corenlp_to_xmltree_sub dp fuel rid).isSome = true := by
  intro fuel
  induction fuel with
  | zero =>
    intro rid k h hmin hf
    have := mindepth_le dp h hmin
    omega
  | succ fuel ih =>
    intro rid k h hmin hf
    rw [corenlp_to_xmltree_sub]
    have hfold := foldr_children_isSome dp fuel (childIdxs dp rid) ?children
    · obtain ⟨ts, hts⟩ := Option.isSome_iff_exists.mp hfold
      rw [hts]
      rfl
    · intro i hi
      have hd : dp.get? i = some rid := by
        simp only [childIdxs, List.mem_filter, List.mem_range] at hi
        exact beq_iff_eq.mp hi.2
      obtain ⟨h', hmin'⟩ := child_step dp hd h hmin
      exact ih (i + 1) (k + 1) h' hmin' (by omega)

/-- The tree construction of `corenlp_to_xmltree` terminates on every
dependency parent array: the wrapper's fuel of `N + 1` always suffices. -/
theorem corenlp_to_xmltree_total (dp : List Nat) :
    (corenlp_to_xmltree dp).isSome = true :=
  xmltree_sub_total dp (dp.length + 1) 0 0 rfl
    (fun m hm => absurd hm (Nat.not_lt_zero m)) (by omega)

/-- A sentence whose second token is its own dependency parent (a cycle not
involving the root position). -/
def sentCyclic : Sentence :=
  ⟨["A", "B"], ["a", "b"], ["NN", "NN"], [0, 2], ["ROOT", "dep"],
    1, 0, "A B", [0, 2]⟩

/-- C10 counterexample: with `dep_parents = [0, 2]` the second token is its
own parent, a cycle among non-root tokens, yet the tree recursion and the
per-sentence Relations extraction both complete — the self-parented token
is simply never reached from the root, so the claimed non-termination does
not occur. -/
theorem cyclic_parents_terminate_cex :
    corenlp_to_xmltree [0, 2] = some (XTree.node 0 [XTree.node 1 []]) ∧
    Relations_applyWithTree (fun _ => [([0], "G")]) (fun _ => [([1], "P")])
      sentCyclic = some [(sentCyclic, ([0], "G"), ([1], "P"))] :=
  ⟨rfl, rfl⟩

/-- C10 amended: the per-sentence extraction builds the dependency tree by
recursing from the root over `dep_parents`, descending to every token whose
parent is the current 1-based node id, and this recursion terminates on
every `dep_parents` array — in particular on well-formed arrays, but also
when non-root tokens form a cycle, since a token in a cycle is never
reached from the root — so Relations' per-sentence candidate extraction
always completes. -/
theorem xmltree_always_terminates :
    (∀ dp : List Nat, (corenlp_to_xmltree dp).isSome = true) ∧
    ∀ (m1 m2 : Matcher) (s : Sentence),
      Relations_applyWithTree m1 m2 s = some (Relations_apply m1 m2 s) := by
  refine ⟨corenlp_to_xmltree_total, ?_⟩
  intro m1 m2 s
  obtain ⟨t, ht⟩ :=
    Option.isSome_iff_exists.mp (corenlp_to_xmltree_total s.dep_parents)
  simp [Relations_applyWithTree, ht]
